import Mathlib

/-!
Shallow embedding of the SL ("Simple String Library") string buffer
library (src/sl.c, src/sl.h) and verification of its specification.

Modelling conventions:

* A ManagedString (`sl_s` descriptor plus content area) is a structure
  `SL` with the two `uint32_t` descriptor fields `res` (reserved bytes
  for content, terminator included) and `len` (logical length), plus
  `buf`, the list of the `res` content bytes.  Bytes are `Nat` values;
  every byte written by the library is below 256.
* `uint32_t` arithmetic is `Nat` arithmetic reduced modulo `2^32`
  (`u32`, `u32sub`) at the operations the source performs on
  `sl_size_t` values.
* Byte copies are modelled by `writeAt`, which splices the source
  bytes, read from the state before the write, into the buffer.  This
  is exactly the C semantics of `memmove`; it is used for those
  `strncpy` calls and hand written copy loops whose ranges do not
  overlap or whose writes stay strictly behind the position being
  read, so the snapshot agrees with the execution order.  The one
  call for which neither holds, the `strncpy` of the self-append
  `slcat(&s, s)`, is modelled separately as a sequential forward
  byte copy (`strncpy_fwd`, see `slcat_self`).
* Bytes that C leaves uninitialised (fresh `malloc`/`realloc` storage)
  are modelled as 0; no theorem below depends on their value.
* Reads through a `char*` stop at the first null byte, modelled with
  `takeWhile`.
-/

namespace Sl

/-- Modulus of the `sl_size_t` (`uint32_t`) machine arithmetic. -/
def M : Nat := 2 ^ 32

/-- Reduction of a `Nat` to `uint32_t` range. -/
def u32 (n : Nat) : Nat := n % M

/-- Wrapping `uint32_t` subtraction `a - b`. -/
def u32sub (a b : Nat) : Nat := (a + (M - b % M)) % M

/-- ManagedString: the `sl_s` descriptor (`res`, `len`) together with
the `res` bytes of the content area (`str[0] .. str[res-1]`). -/
structure SL where
  res : Nat
  len : Nat
  buf : List Nat
  deriving Repr, DecidableEq

/-- Representation invariants of an SL string: the reserved size fits
`uint32_t`, is at least `len + 1`, the buffer has exactly `res` bytes
and the byte at index `len` is the null terminator. -/
def wellFormed (s : SL) : Prop :=
  s.len + 1 ≤ s.res ∧ s.res < M ∧ s.buf.length = s.res ∧ s.buf.getD s.len 1 = 0

instance : DecidablePred wellFormed := fun s => by
  unfold wellFormed; infer_instance

/-- Logical content of the string: the first `len` buffer bytes. -/
def content (s : SL) : List Nat := s.buf.take s.len

/-- The bytes a C-string reader sees through the handle: the buffer
bytes up to the first null. -/
def nz (x : Nat) : Bool := x ≠ 0

def cstr (s : SL) : List Nat := s.buf.takeWhile nz

/-- Whether the logical content contains no null byte (so that C-string
scans over the handle see exactly the logical content). -/
def nullFree (s : SL) : Prop := ¬ 0 ∈ content s

instance : DecidablePred nullFree := fun s => by
  unfold nullFree; infer_instance

/-- Writing the byte list `src` into `buf` starting at index `pos`,
the source bytes being read before the write (memmove semantics). -/
def writeAt (buf : List Nat) (pos : Nat) (src : List Nat) : List Nat :=
  buf.take pos ++ src ++ buf.drop (pos + src.length)

/-- Model of `slnew`: fresh allocation of `size` content bytes with
`res = size`, `len = 0` and `str[0] = 0`.  The C code leaves bytes
`1 .. size-1` uninitialised; the model fills them with 0.  (`slnew(0)`
writes `str[0]` outside the allocation in C; the claims only use
`size ≥ 1`.) -/
def slnew (size : Nat) : SL :=
  { res := size, len := 0, buf := List.replicate size 0 }

/-- Model of `slres`: grow the reservation to exactly `size` when the
current reservation is smaller, otherwise do nothing.  `realloc`
preserves the old bytes; the fresh bytes are uninitialised (modelled
as 0). -/
def slres (s : SL) (size : Nat) : SL :=
  if s.res < size then
    { res := size, len := s.len, buf := s.buf ++ List.replicate (size - s.res) 0 }
  else s

/-- Model of `sl_ensure`, which just forwards to `slres`. -/
def sl_ensure (s : SL) (size : Nat) : SL := slres s size

/-- Model of `sl_norm_idx`: a negative index is added to the length in
`uint32_t` arithmetic, a non-negative index above the length saturates
to the length. -/
def sl_norm_idx (s : SL) (idx : Int) : Nat :=
  if idx < 0 then ((((s.len : Int) + idx) % (M : Int))).toNat
  else if s.len < idx.toNat then s.len else idx.toNat

/-- Model of `sllim`: `s->str[pos] = 0; s->len = pos;` with no index
normalization.  The stored length is the `int` argument converted to
`uint32_t`.  A negative `pos` indexes in front of the content area in
C (undefined behaviour); the model is only used with `pos ≥ 0`. -/
def sllim (s : SL) (pos : Int) : SL :=
  { s with buf := s.buf.set pos.toNat 0, len := (pos % (M : Int)).toNat }

/-- Model of `slpop`: normalize the position; when it differs from the
length, shift the tail (terminator included) one byte to the left and
decrement the length, otherwise do nothing. -/
def slpop (s : SL) (pos : Int) : SL :=
  let p := sl_norm_idx s pos
  if p ≠ s.len then
    { s with buf := writeAt s.buf p ((s.buf.drop (p + 1)).take (u32sub s.len p)),
             len := u32sub s.len 1 }
  else s

/-- Model of `slcpy_base`: ensure room for the source plus terminator,
copy it to the front (`strncpy` copies the `src.length + 1` bytes
`src ++ [0]`) and store the source length.  `src` is the logical
source string (null free, terminator not included). -/
def slcpy_base (s : SL) (src : List Nat) : SL :=
  let s1 := slres s (u32 (src.length + 1))
  { res := s1.res, len := u32 (src.length + 1) - 1,
    buf := writeAt s1.buf 0 (src ++ [0]) }

/-- Model of `slstr_c`: allocate `strlen(cs) + 1` bytes, copy the
C-string and its terminator, set the length. -/
def slstr_c (cs : List Nat) : SL :=
  let ss := slnew (cs.length + 1)
  { ss with buf := writeAt ss.buf 0 (cs ++ [0]), len := cs.length }

/-- Model of `slsiz_c`: allocate `max size (strlen(cs)+1)` bytes, then
copy the C-string via `slcpy_c` (that is `slcpy_base`). -/
def slsiz_c (cs : List Nat) (size : Nat) : SL :=
  let len := cs.length + 1
  let ss := if size > len then slnew size else slnew len
  slcpy_base ss cs

/-- Sequential forward copy of `n` bytes from position `src` to
position `dst` within one buffer, one byte per step in increasing
order, each read seeing the writes of the earlier steps.  This is how
a naive `strncpy` executes on overlapping ranges (the padding rule of
`strncpy` never triggers here: in the one use below the bytes the
evolving source region presents are all non-null). -/
def strncpy_fwd (buf : List Nat) (dst src : Nat) : Nat → List Nat
  | 0 => buf
  | n + 1 => strncpy_fwd (buf.set dst (buf.getD src 0)) (dst + 1) (src + 1) n

/-- Model of the self-append call `slcat(&s, s)`, i.e. `slcat_base`
entered with `s2 == *s1`.  `slcat_base` first runs
`sl_ensure(s1, len + len1)`.  If that reallocates, `s2` still points
at the block `realloc` freed, and the following
`strncpy(sl_end(*s1), s2, len1)` reads freed memory: undefined
behaviour with no guaranteed content, modelled as `none`.  Without
relocation the `strncpy` destination `s + len` overlaps the source
`s .. s + len` at the terminator byte (undefined behaviour for
`strncpy`); the model executes it as the naive sequential forward
copy, whose first step overwrites the terminator `s[len]` with `s[0]`
and whose last step then copies that clobbered byte to index
`2*len`.  The length update `len += len1 - 1` follows the source. -/
def slcat_self (s : SL) : Option SL :=
  let len1 := u32 (s.len + 1)
  if s.res < u32 (s.len + len1) then none
  else some { s with buf := strncpy_fwd s.buf s.len 0 len1,
                     len := u32 (s.len + (len1 - 1)) }

/-- Model of `slpsh`: normalize the position, ensure `len + 1` bytes,
shift the tail right by one when inserting before the end, store the
character, increment the length and re-terminate. -/
def slpsh (s : SL) (pos : Int) (c : Nat) : SL :=
  let p := sl_norm_idx s pos
  let s1 := slres s (u32 (s.len + 1))
  let s2 :=
    if p ≠ s1.len then
      { s1 with buf := writeAt s1.buf (p + 1) ((s1.buf.drop p).take (u32sub s1.len p)) }
    else s1
  let s3 := { s2 with buf := s2.buf.set p (c % 256) }
  { s3 with len := u32 (s3.len + 1), buf := s3.buf.set (u32 (s3.len + 1)) 0 }

/-- Model of the loop body of `slmul`.  The C loop is
`for i < cnt: strncpy(p, cs, clen); *p += clen;` where `p` stays at
the old end of the string: each iteration copies `cs` to the same
place and then adds `clen` to the byte at `p` (it does not advance
`p`; byte arithmetic wraps modulo 256). -/
def slmul_loop (buf : List Nat) (p : Nat) (cs : List Nat) : Nat → List Nat
  | 0 => buf
  | n + 1 =>
    let b1 := writeAt buf p cs
    slmul_loop (b1.set p ((b1.getD p 0 + cs.length) % 256)) p cs n

/-- Model of `slmul`: ensure room for `len + cnt * clen + 1` bytes,
run the copy loop, write a terminator at the (never advanced) write
pointer and increase the length by `cnt`. -/
def slmul (s : SL) (cs : List Nat) (cnt : Nat) : SL :=
  let clen := cs.length
  let s1 := slres s (u32 (s.len + cnt * clen + 1))
  let b := slmul_loop s1.buf s.len cs cnt
  { res := s1.res, len := u32 (s.len + cnt), buf := b.set s.len 0 }

/-- Model of the scan `i = len; while (i > 0 && ss[i] != '/') i--;`
used by `sldir` and `slbas` (47 is the code of the separator). -/
def slash_scan (buf : List Nat) : Nat → Nat
  | 0 => 0
  | i + 1 => if buf.getD (i + 1) 1 = 47 then i + 1 else slash_scan buf i

/-- Model of `sldir`: truncate at the last separator; with no
separator in front of position 0, rewrite the string to "." (byte 46),
with a leading separator only, rewrite to "/". -/
def sldir (s : SL) : SL :=
  let i := slash_scan s.buf s.len
  if i = 0 then
    if s.buf.getD 0 1 = 47 then { s with buf := s.buf.set 1 0, len := 1 }
    else { s with buf := (s.buf.set 0 46).set 1 0, len := 1 }
  else { s with buf := s.buf.set i 0, len := i }

/-- Model of `slbas`: with no separator return the string unchanged,
otherwise left-shift the suffix after the last separator to the front
and re-terminate. -/
def slbas (s : SL) : SL :=
  let i := slash_scan s.buf s.len
  if i = 0 ∧ s.buf.getD 0 1 ≠ 47 then s
  else
    let j := i + 1
    let len2 := u32sub s.len j
    { s with len := len2,
             buf := (writeAt s.buf 0 ((s.buf.drop j).take len2)).set len2 0 }

/-- Outcome of an operation ran against a possibly failing allocator:
a valid string, a null handle handed back to the caller, or a fault
(the code dereferences the null pointer the allocator returned, which
is undefined behaviour). -/
inductive AllocResult where
  | ok (s : SL) : AllocResult
  | nullResult : AllocResult
  | fault : AllocResult
  deriving Repr, DecidableEq

/-- Model of `slnew` against an allocator that succeeds iff `allocOk`.
The source performs no null check: after `s = sl_malloc(...)` it
immediately writes `s->res`, so a failing allocation is a null
dereference, not a null result. -/
def slnewA (allocOk : Bool) (size : Nat) : AllocResult :=
  if allocOk then .ok (slnew size) else .fault

/-- Model of `slres` against an allocator that succeeds iff `allocOk`.
When no growth is needed the allocator is never called; when growth is
needed the source writes `s->res` through the `sl_realloc` result
without a null check, so a failing reallocation is a null
dereference. -/
def slresA (allocOk : Bool) (s : SL) (size : Nat) : AllocResult :=
  if s.res < size then
    if allocOk then .ok (slres s size) else .fault
  else .ok s

/-- Result of the `sldiv_base` loop: the running segment counter
`divcnt`, the running segment start `a`, the (possibly delimiter
nulled) buffer and the recorded segment start positions. -/
structure DivOut where
  cnt : Nat
  a : Nat
  buf : List Nat
  div : List Nat
  deriving Repr, DecidableEq

/-- Model of the scanning loop of `sldiv_base`.  `b` is the scan
position; the loop runs while the byte at `b` is non-zero.  When the
byte equals the delimiter it is overwritten with 0 if `size ≥ 0`, and
while `divcnt < size` the running segment start is recorded and the
scan position advances by 2 in total (the source does `b += 1; a = b;`
inside the branch and `b++` afterwards).  When the delimiter ends the
content, that double advance puts `b` one byte past the terminator; in
C this reads an uninitialised byte, the model reads it as 0 and
exits. -/
def divNull (size : Int) (buf : List Nat) (b : Nat) : List Nat :=
  if 0 ≤ size then buf.set b 0 else buf

@[simp] theorem divNull_length (size : Int) (buf : List Nat) (b : Nat) :
    (divNull size buf b).length = buf.length := by
  unfold divNull; split <;> simp

def sldiv_loop (c : Nat) (size : Int) : Nat → List Nat → Nat → Nat → Nat → List Nat → DivOut
  | 0, buf, a, _, divcnt, div => { cnt := divcnt, a := a, buf := buf, div := div }
  | fuel + 1, buf, a, b, divcnt, div =>
    if buf.length ≤ b then { cnt := divcnt, a := a, buf := buf, div := div }
    else if buf.getD b 1 = 0 then { cnt := divcnt, a := a, buf := buf, div := div }
    else if buf.getD b 1 = c then
      if (divcnt : Int) < size then
        sldiv_loop c size fuel (divNull size buf b) (b + 1) (b + 2) (divcnt + 1) (div ++ [a])
      else
        sldiv_loop c size fuel (divNull size buf b) a (b + 1) (divcnt + 1) div
    else
      sldiv_loop c size fuel buf a (b + 1) divcnt div

/-- Model of `sldiv_base`: run the loop from the start of the string,
record the final segment when storage remains, return `divcnt + 1`
segments.  The loop is driven by a structural fuel counter so that it
stays kernel-computable; every iteration advances the scan position
`b` by at least one and the loop exits once `b` reaches the buffer
length, so the fuel `buf.length + 1` passed here is never
exhausted. -/
def sldiv_base (buf : List Nat) (c : Nat) (size : Int) : DivOut :=
  let o := sldiv_loop c size (buf.length + 1) buf 0 0 0 []
  { o with cnt := o.cnt + 1,
           div := if (o.cnt : Int) < size ∧ 0 ≤ size then o.div ++ [o.a] else o.div }

/-- Model of `sldiv` called with a negative size: the source calls
`sldiv_base(ss, c, -1, NULL)` and performs no allocation.  Returned are
the segment count and the resulting buffer. -/
def sldiv_count (s : SL) (c : Nat) : Nat × List Nat :=
  let o := sldiv_base s.buf c (-1)
  (o.cnt, o.buf)

theorem take_set_of_le (a : Nat) : ∀ (l : List Nat) (i n : Nat), n ≤ i →
    (l.set i a).take n = l.take n := by
  intro l
  induction l with
  | nil => intro i n _; simp
  | cons x xs ih =>
    intro i n hni
    cases i with
    | zero =>
      have : n = 0 := Nat.le_zero.mp hni
      simp [this]
    | succ j =>
      cases n with
      | zero => simp
      | succ m =>
        simp only [List.set, List.take]
        rw [ih j m (Nat.le_of_succ_le_succ hni)]

theorem nz_zero : nz 0 = false := rfl

theorem nz_of_ne {x : Nat} (h : x ≠ 0) : nz x = true := by
  simp [nz, h]

theorem takeWhile_append_zero (l2 : List Nat) : ∀ l1 : List Nat, ¬ 0 ∈ l1 →
    (l1 ++ 0 :: l2).takeWhile nz = l1 := by
  intro l1
  induction l1 with
  | nil => intro _; simp [List.takeWhile_cons, nz_zero]
  | cons x xs ih =>
    intro h
    simp only [List.mem_cons] at h
    push_neg at h
    have hx : x ≠ 0 := fun hc => h.1 hc.symm
    simp only [List.cons_append, List.takeWhile_cons, nz_of_ne hx, if_pos]
    rw [ih h.2]

/-- The C-string view of a well-formed string with null-free content
is exactly the content. -/
theorem cstr_eq_content (s : SL) (hw : wellFormed s) (hnf : nullFree s) :
    cstr s = content s := by
  obtain ⟨hlen, hres, hbuf, hterm⟩ := hw
  have hlt : s.len < s.buf.length := by omega
  have hdrop : s.buf.drop s.len = 0 :: s.buf.drop (s.len + 1) := by
    rw [List.drop_eq_getElem_cons hlt]
    have hg : s.buf[s.len] = 0 := by
      rw [← List.getD_eq_getElem s.buf 1 hlt]
      exact hterm
    rw [hg]
  have hsplit : s.buf = s.buf.take s.len ++ 0 :: s.buf.drop (s.len + 1) := by
    conv_lhs => rw [← List.take_append_drop s.len s.buf]
    rw [hdrop]
  unfold cstr content at *
  conv_lhs => rw [hsplit]
  exact takeWhile_append_zero _ _ hnf

/-- The `sldiv_base` loop in pure counting mode (negative size): it
returns the incoming counter plus the number of delimiter occurrences
in the C-string starting at scan position `b`, and changes nothing
else. -/
theorem sldiv_loop_neg_count (c : Nat) (buf : List Nat) :
    ∀ (fuel a b divcnt : Nat) (div : List Nat), buf.length - b < fuel →
      sldiv_loop c (-1) fuel buf a b divcnt div =
        { cnt := divcnt + ((buf.drop b).takeWhile nz).count c,
          a := a, buf := buf, div := div } := by
  intro fuel
  induction fuel with
  | zero =>
    intro a b divcnt div hn
    omega
  | succ n ih =>
    intro a b divcnt div hn
    by_cases hb : buf.length ≤ b
    · rw [sldiv_loop, if_pos hb]
      rw [List.drop_of_length_le hb]
      simp
    · have hlt : b < buf.length := Nat.lt_of_not_le hb
      have hgd : buf.getD b 1 = buf[b] := List.getD_eq_getElem buf 1 hlt
      have hdrop : buf.drop b = buf[b] :: buf.drop (b + 1) := List.drop_eq_getElem_cons hlt
      rw [sldiv_loop, if_neg hb]
      by_cases h0 : buf.getD b 1 = 0
      · rw [if_pos h0]
        rw [hdrop]
        rw [hgd] at h0
        rw [h0, List.takeWhile_cons, nz_zero]
        simp
      · rw [if_neg h0]
        rw [hgd] at h0
        by_cases hc : buf.getD b 1 = c
        · rw [if_pos hc]
          rw [hgd] at hc
          rw [if_neg (by omega)]
          have hrec := ih a (b + 1) (divcnt + 1) div (by omega)
          unfold divNull
          rw [if_neg (by omega)]
          rw [hrec, hdrop]
          have ht : (buf[b] :: buf.drop (b + 1)).takeWhile nz =
              buf[b] :: (buf.drop (b + 1)).takeWhile nz := by
            rw [List.takeWhile_cons, nz_of_ne h0]
            simp
          rw [ht, hc]
          simp only [List.count_cons_self]
          congr 1
          omega
        · rw [if_neg hc]
          rw [hgd] at hc
          have hrec := ih a (b + 1) divcnt div (by omega)
          rw [hrec, hdrop]
          have ht : (buf[b] :: buf.drop (b + 1)).takeWhile nz =
              buf[b] :: (buf.drop (b + 1)).takeWhile nz := by
            rw [List.takeWhile_cons, nz_of_ne h0]
            simp
          rw [ht]
          rw [List.count_cons_of_ne (fun hq => hc hq.symm)]

theorem slres_res_le (s : SL) (n : Nat) : s.res ≤ (slres s n).res := by
  unfold slres
  split
  · next h => show s.res ≤ n; omega
  · exact Nat.le_refl _

/-- Claim C1 (code_bug evidence).  The claim states that every library
operation applied to a well-formed string with valid arguments keeps
the representation invariants (`res ≥ length + 1`, `content[length] = 0`).
The operation `slmul` violates it: `slmul` on the well-formed empty
string produced by `slnew 3`, with the two-byte C-string "ab" and
count 1, yields length 1 with byte 98 (not 0) at index 1, because the
copy loop executes `*p += clen` (modifying the byte at the write
position instead of advancing the pointer) and the length is increased
by `cnt` instead of `cnt * strlen(cs)`. -/
theorem claim_C1_slmul_breaks_invariant :
    wellFormed (slnew 3)
    ∧ (slmul (slnew 3) [97, 98] 1).len = 1
    ∧ (slmul (slnew 3) [97, 98] 1).buf = [0, 98, 0]
    ∧ ¬ wellFormed (slmul (slnew 3) [97, 98] 1) := by decide

/-- Claim C3, counterexample.  On allocation failure `slnew` does not
hand a null result back to the caller: the source dereferences the
null pointer returned by the allocator (a fault), and so does `slres`
whenever growth is required. -/
theorem claim_C3_cex :
    slnewA false 8 = AllocResult.fault
    ∧ slnewA false 8 ≠ AllocResult.nullResult
    ∧ slresA false (slnew 4) 16 = AllocResult.fault := by decide

/-- Claim C3, amended.  The code performs no null check on the
allocator result: with a failing allocator, `slnew` and any `slres`
that must grow fault by dereferencing the null return value instead of
propagating a null result; an `slres` that needs no growth never calls
the allocator and returns the string intact; with a succeeding
allocator both behave as the plain models. -/
theorem claim_C3_alloc_failure (s : SL) (size n m : Nat)
    (hgrow : s.res < n) (hfit : m ≤ s.res) :
    slnewA false size = AllocResult.fault
    ∧ slresA false s n = AllocResult.fault
    ∧ slresA false s m = AllocResult.ok s
    ∧ slresA true s n = AllocResult.ok (slres s n)
    ∧ slnewA true size = AllocResult.ok (slnew size) := by
  unfold slnewA slresA
  simp [hgrow, Nat.not_lt.mpr hfit]

/-- Witness for claim C3 at concrete inputs. -/
theorem claim_C3_alloc_failure_witness :
    slnewA false 8 = AllocResult.fault
    ∧ slresA false (slnew 4) 16 = AllocResult.fault
    ∧ slresA false (slnew 4) 2 = AllocResult.ok (slnew 4)
    ∧ slresA true (slnew 4) 16 = AllocResult.ok (slres (slnew 4) 16)
    ∧ slnewA true 8 = AllocResult.ok (slnew 8) :=
  claim_C3_alloc_failure (slnew 4) 8 16 2 (by decide) (by decide)

/-- Claim C2 (code_bug evidence).  The claim states that
`slcat(&h, h)` yields length 2L and the doubled content regardless of
relocation; the spec adds that self-append "must not corrupt data".
The code does not deliver this.  On `s = slsiz_c("ab", 8)` (length 2,
reservation 8) no relocation is needed and the overlapping `strncpy`
executes as a forward copy: the length becomes 4 and the first four
bytes are doubled, but the byte at index 4 is 97 (the clobbered copy
of `s[0]`) instead of the null terminator, so the result violates
`content[length] = 0` and is not a valid SL string.  On
`s = slstr_c("ab")` (reservation 3) the ensure step relocates and the
copy reads the freed old block through the stale `s2` pointer:
undefined behaviour with no guaranteed result (`none` in the
model). -/
theorem claim_C2_self_append_unsound :
    slcat_self (slsiz_c [97, 98] 8)
        = some { res := 8, len := 4, buf := [97, 98, 97, 98, 97, 0, 0, 0] }
    ∧ content { res := 8, len := 4, buf := [97, 98, 97, 98, 97, 0, 0, 0] }
        = [97, 98, 97, 98]
    ∧ ({ res := 8, len := 4, buf := [97, 98, 97, 98, 97, 0, 0, 0] } : SL).buf.getD 4 1 = 97
    ∧ ¬ wellFormed { res := 8, len := 4, buf := [97, 98, 97, 98, 97, 0, 0, 0] }
    ∧ wellFormed (slsiz_c [97, 98] 8)
    ∧ slcat_self (slstr_c [97, 98]) = none := by decide

/-- Claim C5.  `slres` never decreases the reservation: it is the
identity when the current reservation already covers the request, it
reallocates to exactly the requested size otherwise, the resulting
reservation dominates both the request and the prior reservation, and
length and content are unchanged. -/
theorem claim_C5_slres_monotone (s : SL) (n : Nat) (hw : wellFormed s) :
    s.res ≤ (slres s n).res
    ∧ n ≤ (slres s n).res
    ∧ (s.res < n → (slres s n).res = n)
    ∧ (n ≤ s.res → slres s n = s)
    ∧ (slres s n).len = s.len
    ∧ content (slres s n) = content s := by
  obtain ⟨hlen, _, hbuf, _⟩ := hw
  unfold slres content
  by_cases h : s.res < n
  · rw [if_pos h]
    refine ⟨Nat.le_of_lt h, Nat.le_refl n, fun _ => rfl, fun hc => absurd h (Nat.not_lt.mpr hc),
      rfl, ?_⟩
    show List.take s.len (s.buf ++ List.replicate (n - s.res) 0) = List.take s.len s.buf
    exact List.take_append_of_le_length (by omega)
  · rw [if_neg h]
    exact ⟨Nat.le_refl _, Nat.le_of_not_lt h, fun hc => absurd hc h, fun _ => rfl, rfl, rfl⟩

/-- Witness for claim C5 at a concrete input (the growth condition is
discharged concretely). -/
theorem claim_C5_slres_monotone_witness :
    (slstr_c [97]).res ≤ (slres (slstr_c [97]) 7).res
    ∧ 7 ≤ (slres (slstr_c [97]) 7).res
    ∧ (slres (slstr_c [97]) 7).res = 7
    ∧ (slres (slstr_c [97]) 7).len = (slstr_c [97]).len
    ∧ content (slres (slstr_c [97]) 7) = content (slstr_c [97]) :=
  ⟨(claim_C5_slres_monotone (slstr_c [97]) 7 (by decide)).1,
   (claim_C5_slres_monotone (slstr_c [97]) 7 (by decide)).2.1,
   (claim_C5_slres_monotone (slstr_c [97]) 7 (by decide)).2.2.1 (by decide),
   (claim_C5_slres_monotone (slstr_c [97]) 7 (by decide)).2.2.2.2.1,
   (claim_C5_slres_monotone (slstr_c [97]) 7 (by decide)).2.2.2.2.2⟩

/-- Claim C6, counterexample.  `sllim` applies no index normalization:
on a string of length 4 (with reservation 16) position 10 normalizes
to 4, but `sllim` sets the stored length to the raw position 10. -/
theorem claim_C6_cex :
    sl_norm_idx (slsiz_c [97, 98, 99, 100] 16) 10 = 4
    ∧ (sllim (slsiz_c [97, 98, 99, 100] 16) 10).len = 10 := by decide

/-- Claim C6, amended.  `sllim` does not normalize its position (unlike
`slins`, `slsel`, `slpop` and `slpsh`): it stores the raw position as
the new length and writes a null byte there.  For positions within the
current length this truncates the string to the first `pos` bytes and
preserves well-formedness; larger or negative positions are outside
the operation's contract. -/
theorem claim_C6_sllim_raw (s : SL) (pos : Int) (hw : wellFormed s)
    (h0 : 0 ≤ pos) (hp : pos.toNat ≤ s.len) :
    (sllim s pos).len = pos.toNat
    ∧ content (sllim s pos) = (content s).take pos.toNat
    ∧ wellFormed (sllim s pos) := by
  obtain ⟨hlen, hres, hbuf, hterm⟩ := hw
  have hposM : pos < (M : Int) := by
    have : (pos.toNat : Int) = pos := Int.toNat_of_nonneg h0
    have hM : (s.len : Int) < (M : Int) := by exact_mod_cast Nat.lt_of_lt_of_le (by omega) (le_refl M)
    omega
  have hlenval : (sllim s pos).len = pos.toNat := by
    unfold sllim
    simp only
    rw [Int.emod_eq_of_lt h0 hposM]
  refine ⟨hlenval, ?_, ?_⟩
  · unfold sllim content at *
    simp only
    rw [Int.emod_eq_of_lt h0 hposM]
    rw [take_set_of_le _ _ _ _ (Nat.le_refl _)]
    rw [List.take_take]
    congr 1
    omega
  · unfold sllim wellFormed
    simp only [List.length_set]
    rw [Int.emod_eq_of_lt h0 hposM]
    refine ⟨by omega, hres, hbuf, ?_⟩
    have hlt : pos.toNat < s.buf.length := by omega
    rw [List.getD_eq_getElem?_getD, List.getElem?_set_self hlt]
    rfl

/-- Witness for claim C6 at a concrete input. -/
theorem claim_C6_sllim_raw_witness :
    (sllim (slstr_c [97, 98, 99, 100]) 2).len = Int.toNat 2
    ∧ content (sllim (slstr_c [97, 98, 99, 100]) 2) =
        (content (slstr_c [97, 98, 99, 100])).take (Int.toNat 2)
    ∧ wellFormed (sllim (slstr_c [97, 98, 99, 100]) 2) :=
  claim_C6_sllim_raw (slstr_c [97, 98, 99, 100]) 2 (by decide) (by decide) (by decide)

/-- Claim C7.  Index normalization: a negative position `idx` with
`len + idx ≥ 0` maps to `len + idx`, a non-negative position above the
length saturates to the length; on a string of length 4 positions -1,
-4 and 10 map to 3, 0 and 4. -/
theorem claim_C7_norm_idx (s : SL) (idx : Int) (hw : wellFormed s) :
    (idx < 0 → 0 ≤ (s.len : Int) + idx → sl_norm_idx s idx = ((s.len : Int) + idx).toNat)
    ∧ (0 ≤ idx → s.len < idx.toNat → sl_norm_idx s idx = s.len)
    ∧ sl_norm_idx (slstr_c [97, 98, 99, 100]) (-1) = 3
    ∧ sl_norm_idx (slstr_c [97, 98, 99, 100]) (-4) = 0
    ∧ sl_norm_idx (slstr_c [97, 98, 99, 100]) 10 = 4 := by
  obtain ⟨hlen, hres, _, _⟩ := hw
  refine ⟨?_, ?_, by decide, by decide, by decide⟩
  · intro hneg hnn
    unfold sl_norm_idx
    simp only [hneg, if_true]
    have hM : (s.len : Int) + idx < (M : Int) := by
      have : (s.len : Int) < (M : Int) := by exact_mod_cast Nat.lt_of_lt_of_le (by omega) (le_refl M)
      omega
    rw [Int.emod_eq_of_lt hnn hM]
  · intro hnn hgt
    unfold sl_norm_idx
    simp only [Int.not_lt.mpr hnn, if_false]
    simp [hgt]

/-- Witness for claim C7 at a concrete input. -/
theorem claim_C7_norm_idx_witness :
    sl_norm_idx (slstr_c [97, 98, 99, 100]) (-2) =
        (((slstr_c [97, 98, 99, 100]).len : Int) + (-2)).toNat
    ∧ sl_norm_idx (slstr_c [97, 98, 99, 100]) (-1) = 3
    ∧ sl_norm_idx (slstr_c [97, 98, 99, 100]) (-4) = 0
    ∧ sl_norm_idx (slstr_c [97, 98, 99, 100]) 10 = 4 :=
  ⟨(claim_C7_norm_idx (slstr_c [97, 98, 99, 100]) (-2) (by decide)).1 (by decide) (by decide),
   (claim_C7_norm_idx (slstr_c [97, 98, 99, 100]) (-2) (by decide)).2.2.1,
   (claim_C7_norm_idx (slstr_c [97, 98, 99, 100]) (-2) (by decide)).2.2.2.1,
   (claim_C7_norm_idx (slstr_c [97, 98, 99, 100]) (-2) (by decide)).2.2.2.2⟩

/-- Claim C8, counterexample.  The counting scan of `sldiv` stops at
the first null byte of the buffer, not after `length` bytes: on the
well-formed length-2 string built by pushing a null byte in front of
"a" (content bytes `[0, 97]`), `sldiv` with delimiter 97 and negative
size returns 1 segment, while one plus the occurrences of 97 among the
first `length` bytes is 2. -/
theorem claim_C8_cex :
    wellFormed (slpsh (slsiz_c [97] 4) 0 0)
    ∧ (content (slpsh (slsiz_c [97] 4) 0 0)).count 97 = 1
    ∧ (sldiv_count (slpsh (slsiz_c [97] 4) 0 0) 97).1 = 1
    ∧ (sldiv_count (slpsh (slsiz_c [97] 4) 0 0) 97).1 ≠
        1 + (content (slpsh (slsiz_c [97] 4) 0 0)).count 97 := by decide

/-- Claim C8, amended.  `sldiv` with a negative size returns one plus
the number of delimiter occurrences among the bytes before the first
null of the buffer, and leaves the buffer (hence every content byte,
the length and the reservation) unchanged, allocating nothing (the
negative-size branch of `sldiv` calls only `sldiv_base` with no
storage).  For a well-formed string with null-free content this count
equals one plus the occurrences of the delimiter among the first
`length` bytes. -/
theorem claim_C8_sldiv_count (s : SL) (c : Nat) :
    (sldiv_count s c).1 = 1 + (cstr s).count c
    ∧ (sldiv_count s c).2 = s.buf
    ∧ (wellFormed s → nullFree s →
        (sldiv_count s c).1 = 1 + (content s).count c) := by
  have h := sldiv_loop_neg_count c s.buf (s.buf.length + 1) 0 0 0 [] (by omega)
  have h1 : (sldiv_count s c).1 = 1 + (cstr s).count c := by
    unfold sldiv_count sldiv_base
    rw [h]
    simp only [List.drop_zero]
    unfold cstr
    omega
  have h2 : (sldiv_count s c).2 = s.buf := by
    unfold sldiv_count sldiv_base
    rw [h]
  refine ⟨h1, h2, fun hw hnf => ?_⟩
  rw [h1, cstr_eq_content s hw hnf]

/-- Witness for claim C8 at the concrete string "XYabcXYabcXY" with
delimiter 'X': four segments. -/
theorem claim_C8_sldiv_count_witness :
    (sldiv_count (slstr_c [88, 89, 97, 98, 99, 88, 89, 97, 98, 99, 88, 89]) 88).1 =
        1 + (cstr (slstr_c [88, 89, 97, 98, 99, 88, 89, 97, 98, 99, 88, 89])).count 88
    ∧ (sldiv_count (slstr_c [88, 89, 97, 98, 99, 88, 89, 97, 98, 99, 88, 89]) 88).2 =
        (slstr_c [88, 89, 97, 98, 99, 88, 89, 97, 98, 99, 88, 89]).buf
    ∧ (sldiv_count (slstr_c [88, 89, 97, 98, 99, 88, 89, 97, 98, 99, 88, 89]) 88).1 =
        1 + (content (slstr_c [88, 89, 97, 98, 99, 88, 89, 97, 98, 99, 88, 89])).count 88 :=
  ⟨(claim_C8_sldiv_count (slstr_c [88, 89, 97, 98, 99, 88, 89, 97, 98, 99, 88, 89]) 88).1,
   (claim_C8_sldiv_count (slstr_c [88, 89, 97, 98, 99, 88, 89, 97, 98, 99, 88, 89]) 88).2.1,
   (claim_C8_sldiv_count (slstr_c [88, 89, 97, 98, 99, 88, 89, 97, 98, 99, 88, 89]) 88).2.2
     (by decide) (by decide)⟩

/-- Claim C9.  Path decomposition on the specified inputs:
"/foo/bar/dii.txt" has directory "/foo/bar" and basename "dii.txt";
"dii.txt" has directory "." and its basename is the unchanged string;
"/foo" has directory "/"; the stored lengths match the contents. -/
theorem claim_C9_paths :
    content (sldir (slstr_c [47, 102, 111, 111, 47, 98, 97, 114, 47, 100, 105, 105, 46, 116, 120, 116]))
      = [47, 102, 111, 111, 47, 98, 97, 114]
    ∧ (sldir (slstr_c [47, 102, 111, 111, 47, 98, 97, 114, 47, 100, 105, 105, 46, 116, 120, 116])).len = 8
    ∧ content (slbas (slstr_c [47, 102, 111, 111, 47, 98, 97, 114, 47, 100, 105, 105, 46, 116, 120, 116]))
      = [100, 105, 105, 46, 116, 120, 116]
    ∧ (slbas (slstr_c [47, 102, 111, 111, 47, 98, 97, 114, 47, 100, 105, 105, 46, 116, 120, 116])).len = 7
    ∧ content (sldir (slstr_c [100, 105, 105, 46, 116, 120, 116])) = [46]
    ∧ (sldir (slstr_c [100, 105, 105, 46, 116, 120, 116])).len = 1
    ∧ slbas (slstr_c [100, 105, 105, 46, 116, 120, 116]) = slstr_c [100, 105, 105, 46, 116, 120, 116]
    ∧ content (sldir (slstr_c [47, 102, 111, 111])) = [47]
    ∧ (sldir (slstr_c [47, 102, 111, 111])).len = 1 := by decide

/-- Claim C10.  `slpop` at a position that normalizes to the length
(in particular any non-negative position at or above the length, on
the empty string any non-negative position at all) is a silent no-op:
the entire state, hence length, content and reservation, is
unchanged. -/
theorem claim_C10_slpop_noop (s : SL) (pos : Int) :
    (sl_norm_idx s pos = s.len → slpop s pos = s)
    ∧ (0 ≤ pos → s.len ≤ pos.toNat → slpop s pos = s) := by
  constructor
  · intro h
    unfold slpop
    simp [h]
  · intro h0 hge
    have hnorm : sl_norm_idx s pos = s.len := by
      unfold sl_norm_idx
      simp only [Int.not_lt.mpr h0, if_false]
      by_cases h : s.len < pos.toNat
      · simp [h]
      · simp only [h, if_false]
        omega
    unfold slpop
    simp [hnorm]

/-- Witness for claim C10 at a concrete input. -/
theorem claim_C10_slpop_noop_witness :
    slpop (slstr_c [97, 98]) 5 = slstr_c [97, 98] :=
  (claim_C10_slpop_noop (slstr_c [97, 98]) 5).2 (by decide) (by decide)

end Sl
